import Mathlib

/-
Verification of the operator-builder manifest compiler.

This development gives a shallow embedding, in Lean 4, of the string
manipulation, file-name deduplication, schema-merge and manifest-processing
routines of the repository (internal/workload/v1 and pkg/utils), and proves
or refutes the specified properties about them.

Go strings are modelled as lists of characters (`GoStr`); the model is
faithful for ASCII input, which is the alphabet of every function modelled
here (Kubernetes kinds, names, namespaces, file names and marker tokens).
-/

/-- Go strings, modelled as character lists (ASCII-faithful). -/
abbrev GoStr := List Char

/-- Coerce a Lean string literal to the Go string model. -/
def gs (s : String) : GoStr := s.data

/-- ASCII upper-casing of one character, as Go `strings.ToUpper` acts on
ASCII letters. -/
def asciiToUpper (c : Char) : Char :=
  if 97 ≤ c.toNat ∧ c.toNat ≤ 122 then Char.ofNat (c.toNat - 32) else c

/-- Go `unicode`/`strings` word-separator test restricted to ASCII: a
character separates words unless it is a letter, a digit or an underscore. -/
def goIsSeparator (c : Char) : Bool :=
  !(c.isAlphanum || c = '_')

/-- The accumulator loop of Go `strings.Title`: upper-case a character when
the previous character (initially a space) is a separator.  `prev` is always
the previous original character, as in Go's implementation. -/
def goTitleAux (prev : Char) : GoStr → GoStr
  | [] => []
  | c :: cs => (if goIsSeparator prev then asciiToUpper c else c) :: goTitleAux c cs

/-- Go `strings.Title` (ASCII model). -/
def goTitle (s : GoStr) : GoStr := goTitleAux ' ' s

/-- Boolean prefix test on character lists. -/
def isPrefixGo : GoStr → GoStr → Bool
  | [], _ => true
  | _ :: _, [] => false
  | p :: ps, c :: cs => p = c && isPrefixGo ps cs

/-- Fuelled worker for `replaceAllGo`; the fuel is the length of the input,
which is enough because every step consumes at least one character. -/
def replaceAllFuel (pat rep : GoStr) : Nat → GoStr → GoStr
  | _, [] => []
  | 0, s => s
  | fuel + 1, c :: cs =>
    if isPrefixGo pat (c :: cs) then
      rep ++ replaceAllFuel pat rep fuel (List.drop pat.length (c :: cs))
    else
      c :: replaceAllFuel pat rep fuel cs

/-- Go `strings.ReplaceAll` (equivalently `strings.Replace(s, old, new, -1)`)
for a non-empty pattern: replace every non-overlapping occurrence of `pat`
left to right.  Every pattern used in the repository is non-empty; an empty
pattern leaves the string unchanged in this model. -/
def replaceAllGo (pat rep s : GoStr) : GoStr :=
  if pat = [] then s else replaceAllFuel pat rep s.length s

/-- The name/namespace sanitisation performed by the legacy
`generateUniqueResourceName` (internal/workload/v1/workload_spec, the
version called by `processManifests`): `strings.Title` followed by removal
of `-`, `.` and `:`. -/
def sanitizeV1 (s : GoStr) : GoStr :=
  replaceAllGo (gs ":") []
    (replaceAllGo (gs ".") []
      (replaceAllGo (gs "-") [] (goTitle s)))

/-- The sanitisation performed by the newer `generateUniqueResourceName`
(internal/workload/v1/kinds): like `sanitizeV1` but additionally removing
the marker-residue tokens `!!Start`, `!!End`, `ParentSpec`,
`CollectionSpec` and spaces. -/
def sanitizeKinds (s : GoStr) : GoStr :=
  replaceAllGo (gs " ") []
    (replaceAllGo (gs "CollectionSpec") []
      (replaceAllGo (gs "ParentSpec") []
        (replaceAllGo (gs "!!End") []
          (replaceAllGo (gs "!!Start") []
            (replaceAllGo (gs ":") []
              (replaceAllGo (gs ".") []
                (replaceAllGo (gs "-") [] (goTitle s))))))))

/-- The metadata of one decoded unstructured manifest object that the unique
name generators consult. -/
structure UnstructuredObject where
  name : GoStr
  nsName : GoStr
  kind : GoStr
  apiVersion : GoStr
  deriving DecidableEq

/-- `generateUniqueResourceName` from internal/workload/v1 (the version used
by `processManifests`): the kind, used verbatim, followed by the sanitised
object name.  The namespace is not consulted. -/
def generateUniqueResourceName (object : UnstructuredObject) : GoStr :=
  object.kind ++ sanitizeV1 object.name

/-- `generateUniqueResourceName` from internal/workload/v1/kinds: the kind,
used verbatim, followed by the sanitised namespace and the sanitised name. -/
def generateUniqueResourceNameKinds (object : UnstructuredObject) : GoStr :=
  object.kind ++ sanitizeKinds object.nsName ++ sanitizeKinds object.name

theorem listAppendCancelLeft {α : Type} : ∀ (a : List α) {b c : List α}, a ++ b = a ++ c → b = c
  | [], _, _, h => h
  | _ :: xs, _, _, h => listAppendCancelLeft xs (List.cons.inj h).2

/-- C1 (counterexample): the claim fails on the cited
`generateUniqueResourceName` of internal/workload/v1: the unique name omits
the namespace entirely, so the two manifests of the specified scenario —
kind `ConfigMap`, name `app-config`, namespaces `default` and `other` —
receive the *same* UniqueName `ConfigMapAppConfig`, not different ones. -/
theorem uniqueName_v1_ignores_namespace :
    generateUniqueResourceName
        ⟨gs "app-config", gs "default", gs "ConfigMap", gs "v1"⟩
      = generateUniqueResourceName
        ⟨gs "app-config", gs "other", gs "ConfigMap", gs "v1"⟩
    ∧ generateUniqueResourceName
        ⟨gs "app-config", gs "default", gs "ConfigMap", gs "v1"⟩
      = gs "ConfigMapAppConfig" := by
  constructor <;> decide

/-- C1 (amended): the kinds-package `generateUniqueResourceNameKinds` equals
the kind (used verbatim, without sanitisation) concatenated with the
sanitised namespace and sanitised name, so two resources with the same kind
and name whose namespaces sanitise differently receive different
UniqueNames — in particular the scenario values `ConfigMapDefaultAppConfig`
and `ConfigMapOtherAppConfig` differ; the legacy v1
`generateUniqueResourceName` used by `processManifests` concatenates only
the kind and the sanitised name, so resources differing only in namespace
always receive identical UniqueNames. -/
theorem uniqueName_characterization :
    (∀ o : UnstructuredObject,
      generateUniqueResourceNameKinds o
        = o.kind ++ sanitizeKinds o.nsName ++ sanitizeKinds o.name)
    ∧ (∀ k ns₁ ns₂ nm av₁ av₂ : GoStr, sanitizeKinds ns₁ ≠ sanitizeKinds ns₂ →
        generateUniqueResourceNameKinds ⟨nm, ns₁, k, av₁⟩
          ≠ generateUniqueResourceNameKinds ⟨nm, ns₂, k, av₂⟩)
    ∧ generateUniqueResourceNameKinds
        ⟨gs "app-config", gs "default", gs "ConfigMap", gs "v1"⟩
      = gs "ConfigMapDefaultAppConfig"
    ∧ generateUniqueResourceNameKinds
        ⟨gs "app-config", gs "other", gs "ConfigMap", gs "v1"⟩
      = gs "ConfigMapOtherAppConfig"
    ∧ (∀ k ns₁ ns₂ nm av₁ av₂ : GoStr,
        generateUniqueResourceName ⟨nm, ns₁, k, av₁⟩
          = generateUniqueResourceName ⟨nm, ns₂, k, av₂⟩) := by
  refine ⟨fun o => rfl, ?_, by decide, by decide, fun _ _ _ _ _ _ => rfl⟩
  intro k ns₁ ns₂ nm av₁ av₂ hns h
  simp only [generateUniqueResourceNameKinds, List.append_assoc,
    List.append_cancel_left_eq, List.append_cancel_right_eq] at h
  exact hns h

/-- C1 (witness for the amended theorem): instantiating the namespace
inequality part at the scenario values. -/
theorem uniqueName_characterization_witness :
    generateUniqueResourceNameKinds
        ⟨gs "app-config", gs "default", gs "ConfigMap", gs "v1"⟩
      ≠ generateUniqueResourceNameKinds
        ⟨gs "app-config", gs "other", gs "ConfigMap", gs "v1"⟩ :=
  uniqueName_characterization.2.1 (gs "ConfigMap") (gs "default") (gs "other")
    (gs "app-config") (gs "v1") (gs "v1") (by decide)

/-- Decimal digit character (`0`–`9`) for a digit value. -/
def digitChar (n : Nat) : Char := Char.ofNat (48 + n)

/-- Fuelled decimal rendering worker; fuel `n + 1` suffices for input `n`. -/
def natDecimalAux : Nat → Nat → GoStr
  | 0, _ => []
  | fuel + 1, n =>
    if n < 10 then [digitChar n]
    else natDecimalAux fuel (n / 10) ++ [digitChar (n % 10)]

/-- Decimal rendering of a natural number, as Go `fmt.Sprintf("%v", n)`
prints a non-negative integer. -/
def natDecimal (n : Nat) : GoStr := natDecimalAux (n + 1) n

/-- Decimal evaluation of a digit string, inverse of `natDecimal`. -/
def decimalVal (s : GoStr) : Nat :=
  s.foldl (fun acc c => acc * 10 + (c.toNat - 48)) 0

theorem decimalVal_append_digit (s : GoStr) (c : Char) :
    decimalVal (s ++ [c]) = decimalVal s * 10 + (c.toNat - 48) := by
  simp [decimalVal, List.foldl_append]

theorem decimalVal_natDecimalAux :
    ∀ fuel n, n < fuel → decimalVal (natDecimalAux fuel n) = n := by
  intro fuel
  induction fuel with
  | zero => intro n h; omega
  | succ f ih =>
    intro n h
    by_cases h10 : n < 10
    · have hd : (digitChar n).toNat = 48 + n := by
        interval_cases n <;> decide
      simp [natDecimalAux, h10, decimalVal, hd]
    · have hlt : n / 10 < f := by omega
      have hd : (digitChar (n % 10)).toNat = 48 + n % 10 := by
        have : n % 10 < 10 := Nat.mod_lt _ (by omega)
        interval_cases h : (n % 10) <;> simp [h, digitChar]
      rw [natDecimalAux]
      simp only [h10, if_false]
      rw [decimalVal_append_digit, ih _ hlt, hd]
      omega

theorem decimalVal_natDecimal (n : Nat) : decimalVal (natDecimal n) = n :=
  decimalVal_natDecimalAux (n + 1) n (Nat.lt_succ_self n)

theorem natDecimal_injective : Function.Injective natDecimal := by
  intro a b h
  have := congrArg decimalVal h
  rwa [decimalVal_natDecimal, decimalVal_natDecimal] at this

/-- `strings.Split(s, pat)[0]` for a non-empty separator: the characters
preceding the first occurrence of `pat`, or all of `s` when `pat` does not
occur. -/
def splitHeadGo (pat : GoStr) : GoStr → GoStr
  | [] => []
  | c :: cs => if isPrefixGo pat (c :: cs) then [] else c :: splitHeadGo pat cs

/-- A child resource produced from one decoded manifest document
(internal/workload/v1 `ChildResource`). -/
structure ChildResource where
  Name : GoStr
  UniqueName : GoStr
  Group : GoStr
  Version : GoStr
  Kind : GoStr
  SourceCode : GoStr
  StaticContent : GoStr
  deriving DecidableEq

/-- A generated source file grouping (internal/workload/v1 `SourceFile`). -/
structure SourceFile where
  Filename : GoStr
  Children : List ChildResource
  deriving DecidableEq

/-- The filename reserved for the generator (`resources.go`), preallocated
as a known conflict in `deduplicateFileNames`. -/
def reservedFileName : GoStr := gs "resources.go"

/-- The renamed filename built by `deduplicateFileNames` on a collision:
`fmt.Sprintf("%s_%v.go", strings.Split(orig, ".go")[0], count)`. -/
def dedupSuffixed (orig : GoStr) (count : Nat) : GoStr :=
  splitHeadGo (gs ".go") orig ++ gs "_" ++ natDecimal count ++ gs ".go"

/-- One iteration of the inner loop of `deduplicateFileNames`: empty
registry slots are skipped; a slot equal to the file's original name bumps
the counter and rewrites the current filename from the original. -/
def dedupScan (orig : GoStr) (acc : Nat × GoStr) (fileName : GoStr) : Nat × GoStr :=
  if fileName = [] then acc
  else if orig = fileName then (acc.1 + 1, dedupSuffixed orig (acc.1 + 1))
  else acc

/-- The inner loop of `deduplicateFileNames` over the registry of file
names, started from the file's original name. -/
def dedupFileName (registry : List GoStr) (orig : GoStr) : GoStr :=
  (registry.foldl (dedupScan orig) (0, orig)).2

/-- The outer loop of `deduplicateFileNames`.  The Go registry array holds,
in order, the *original* filenames of already-processed files (the loop
writes `fileNames[i] = sourceFile.Filename`, where `sourceFile` is the
range copy, i.e. the pre-rename name), then empty slots (skipped by the
inner loop, hence omitted here), then the reserved name in the last slot. -/
def dedupGo (seen : List GoStr) : List SourceFile → List SourceFile
  | [] => []
  | f :: fs =>
    { f with Filename := dedupFileName (seen ++ [reservedFileName]) f.Filename }
      :: dedupGo (seen ++ [f.Filename]) fs

/-- `deduplicateFileNames` from internal/workload/v1 (the kinds-package
copy at workload.go is line-for-line identical). -/
def deduplicateFileNames (files : List SourceFile) : List SourceFile :=
  dedupGo [] files

theorem splitHeadGo_decomp (pat : GoStr) :
    ∀ s : GoStr, ∃ rest, s = splitHeadGo pat s ++ rest
      ∧ (rest = [] ∨ isPrefixGo pat rest = true) := by
  intro s
  induction s with
  | nil => exact ⟨[], rfl, Or.inl rfl⟩
  | cons c cs ih =>
    by_cases h : isPrefixGo pat (c :: cs) = true
    · exact ⟨c :: cs, by simp [splitHeadGo, h], Or.inr h⟩
    · obtain ⟨rest, hrest, hcase⟩ := ih
      refine ⟨rest, ?_, hcase⟩
      simp [splitHeadGo, h]
      exact hrest

theorem ne_dedupSuffixed (B : GoStr) (k : Nat) : B ≠ dedupSuffixed B k := by
  intro h
  obtain ⟨rest, hrest, hcase⟩ := splitHeadGo_decomp (gs ".go") B
  have hform : dedupSuffixed B k
      = splitHeadGo (gs ".go") B ++ ('_' :: (natDecimal k ++ gs ".go")) := by
    simp [dedupSuffixed, gs]
  have h2 : splitHeadGo (gs ".go") B ++ rest
      = splitHeadGo (gs ".go") B ++ ('_' :: (natDecimal k ++ gs ".go")) := by
    rw [← hrest, ← hform]; exact h
  have h3 := listAppendCancelLeft _ h2
  rcases hcase with hnil | hpre
  · rw [hnil] at h3; exact List.noConfusion h3
  · rw [h3] at hpre
    simp [gs, isPrefixGo] at hpre

theorem dedupSuffixed_inj (B : GoStr) {j k : Nat}
    (h : dedupSuffixed B j = dedupSuffixed B k) : j = k := by
  have h' : natDecimal j ++ gs ".go" = natDecimal k ++ gs ".go" := by
    simp only [dedupSuffixed, List.append_assoc] at h
    exact listAppendCancelLeft _ (listAppendCancelLeft _ h)
  rw [List.append_cancel_right_eq] at h'
  exact natDecimal_injective h'

theorem dedupScan_foldl_replicate (B : GoStr) (hB : B ≠ []) :
    ∀ (i c : Nat) (n : GoStr),
      (List.replicate i B).foldl (dedupScan B) (c, n)
        = (c + i, if i = 0 then n else dedupSuffixed B (c + i)) := by
  intro i
  induction i with
  | zero => intro c n; simp
  | succ m ih =>
    intro c n
    rw [List.replicate_succ, List.foldl_cons]
    have hstep : dedupScan B (c, n) B = (c + 1, dedupSuffixed B (c + 1)) := by
      simp [dedupScan, hB]
    rw [hstep, ih (c + 1)]
    rcases Nat.eq_zero_or_pos m with hm | hm
    · subst hm; simp
    · have hm0 : m ≠ 0 := by omega
      have h1 : c + 1 + m = c + (m + 1) := by omega
      simp [hm0, h1]

theorem dedupFileName_uniform (B : GoStr) (hB : B ≠ [])
    (hres : B ≠ reservedFileName) (i : Nat) :
    dedupFileName (List.replicate i B ++ [reservedFileName]) B
      = if i = 0 then B else dedupSuffixed B i := by
  unfold dedupFileName
  rw [List.foldl_append, dedupScan_foldl_replicate B hB i 0 B]
  have hresne : reservedFileName ≠ ([] : GoStr) := by decide
  simp [dedupScan, hresne, hres]

theorem dedupGo_uniform (B : GoStr) (hB : B ≠ []) (hres : B ≠ reservedFileName) :
    ∀ (files : List SourceFile) (i : Nat), (∀ f ∈ files, f.Filename = B) →
      (dedupGo (List.replicate i B) files).map SourceFile.Filename
        = (List.range files.length).map
            (fun j => if i + j = 0 then B else dedupSuffixed B (i + j)) := by
  intro files
  induction files with
  | nil => intro i _; simp [dedupGo]
  | cons f fs ih =>
    intro i hall
    have hf : f.Filename = B := hall f (List.mem_cons_self f fs)
    have hfs : ∀ g ∈ fs, g.Filename = B := fun g hg => hall g (List.mem_cons_of_mem f hg)
    rw [dedupGo, List.map_cons, hf]
    rw [← List.replicate_succ' i B, ih (i + 1) hfs]
    rw [List.length_cons, List.range_succ_eq_map, List.map_cons, List.map_map]
    congr 1
    · show dedupFileName (List.replicate i B ++ [reservedFileName]) B = _
      rw [dedupFileName_uniform B hB hres i]; simp
    · apply List.map_congr_left
      intro j _
      have h1 : i + 1 + j ≠ 0 := by omega
      have h2 : i + (j + 1) ≠ 0 := by omega
      have h3 : i + 1 + j = i + (j + 1) := by omega
      simp only [Function.comp_apply, h1, h2, if_false, h3]

/-- C2 (counterexample): the claim fails as stated.  When the shared base
name is the reserved generator filename `resources.go`, the first file does
*not* keep the unsuffixed base name — it collides with the preallocated
reserved entry and is renamed `resources_1.go`.  (An empty shared name also
escapes deduplication entirely, because empty registry slots are skipped.) -/
theorem dedup_reserved_name_not_kept :
    (deduplicateFileNames [⟨gs "resources.go", []⟩]).map SourceFile.Filename
      = [gs "resources_1.go"]
    ∧ (deduplicateFileNames [⟨gs "", []⟩, ⟨gs "", []⟩]).map SourceFile.Filename
      = [gs "", gs ""] := by
  constructor <;> decide

/-- C2 (amended): for every list of N source files whose candidate
filenames all equal the same non-empty base name B different from the
reserved `resources.go`, deduplication produces exactly N distinct
filenames: the file at index 0 keeps the unsuffixed base name and the file
at index j > 0 receives the numeric suffix j before the `.go` extension, so
suffixes strictly increase starting at 1; collisions are scanned against
the accumulated registry, which contains the reserved generator filename
and the original names of all prior candidates. -/
theorem dedup_uniform_names (B : GoStr) (files : List SourceFile)
    (hB : B ≠ []) (hres : B ≠ reservedFileName)
    (hall : ∀ f ∈ files, f.Filename = B) :
    ((deduplicateFileNames files).map SourceFile.Filename
        = (List.range files.length).map
            (fun j => if j = 0 then B else dedupSuffixed B j))
    ∧ ((deduplicateFileNames files).map SourceFile.Filename).Nodup
    ∧ (deduplicateFileNames files).length = files.length := by
  have hmain : (deduplicateFileNames files).map SourceFile.Filename
      = (List.range files.length).map
          (fun j => if j = 0 then B else dedupSuffixed B j) := by
    have := dedupGo_uniform B hB hres files 0 hall
    simpa [deduplicateFileNames] using this
  refine ⟨hmain, ?_, ?_⟩
  · rw [hmain]
    refine List.Nodup.map_on ?_ (List.nodup_range _)
    intro x _ y _ hxy
    by_cases hx : x = 0 <;> by_cases hy : y = 0 <;>
      simp only [hx, hy, if_true, if_false, reduceIte] at hxy ⊢
    · exact absurd hxy (ne_dedupSuffixed B y)
    · exact absurd hxy.symm (ne_dedupSuffixed B x)
    · exact dedupSuffixed_inj B hxy
  · have := congrArg List.length hmain
    simpa using this

/-- C2 (witness): three files all named `app.go` dedup to
`app.go`, `app_1.go`, `app_2.go`. -/
theorem dedup_uniform_names_witness :
    (gs "app.go" ≠ [] ∧ gs "app.go" ≠ reservedFileName)
    ∧ (((deduplicateFileNames
          [⟨gs "app.go", []⟩, ⟨gs "app.go", []⟩, ⟨gs "app.go", []⟩]).map
            SourceFile.Filename
        = (List.range 3).map
            (fun j => if j = 0 then gs "app.go" else dedupSuffixed (gs "app.go") j))
      ∧ ((deduplicateFileNames
          [⟨gs "app.go", []⟩, ⟨gs "app.go", []⟩, ⟨gs "app.go", []⟩]).map
            SourceFile.Filename).Nodup
      ∧ (deduplicateFileNames
          [⟨gs "app.go", []⟩, ⟨gs "app.go", []⟩, ⟨gs "app.go", []⟩]).length = 3) :=
  ⟨⟨by decide, by decide⟩,
    dedup_uniform_names (gs "app.go")
      [⟨gs "app.go", []⟩, ⟨gs "app.go", []⟩, ⟨gs "app.go", []⟩]
      (by decide) (by decide) (by decide)⟩

/-- C3 (code bug): the cross-file uniqueness invariant fails.  With
candidates `base.go`, `base.go`, `base_1.go`, the second file is renamed to
`base_1.go` while the third file — compared only against the *original*
names recorded in the registry — keeps its native name `base_1.go`, so two
SourceFiles share a filename after deduplication. -/
theorem dedup_duplicate_after_suffixed_input :
    (deduplicateFileNames
        [⟨gs "base.go", []⟩, ⟨gs "base.go", []⟩, ⟨gs "base_1.go", []⟩]).map
          SourceFile.Filename
      = [gs "base.go", gs "base_1.go", gs "base_1.go"]
    ∧ ¬ ((deduplicateFileNames
        [⟨gs "base.go", []⟩, ⟨gs "base.go", []⟩, ⟨gs "base_1.go", []⟩]).map
          SourceFile.Filename).Nodup := by
  constructor <;> decide

/-- `ToPascalCase` from pkg/utils/names.go, as a state machine over the
input: when `makeUpper` is set the character is emitted upper-cased (even a
hyphen) and the flag cleared; otherwise a hyphen sets the flag without
being emitted and any other character is emitted unchanged. -/
def toPascalAux : Bool → GoStr → GoStr
  | _, [] => []
  | true, c :: cs => asciiToUpper c :: toPascalAux false cs
  | false, c :: cs => if c = '-' then toPascalAux true cs else c :: toPascalAux false cs

/-- `utils.ToPascalCase` (pkg/utils/names.go): the state machine started
with `makeUpper = true`. -/
def ToPascalCase (name : GoStr) : GoStr := toPascalAux true name

/-- Whether a string contains two adjacent hyphens. -/
def hasDoubleHyphen : GoStr → Bool
  | c₁ :: c₂ :: rest => (c₁ = '-' && c₂ = '-') || hasDoubleHyphen (c₂ :: rest)
  | _ => false

theorem asciiToUpper_eq_hyphen {c : Char} (h : asciiToUpper c = '-') : c = '-' := by
  unfold asciiToUpper at h
  by_cases hc : 97 ≤ c.toNat ∧ c.toNat ≤ 122
  · exfalso
    rw [if_pos hc] at h
    obtain ⟨h1, h2⟩ := hc
    interval_cases hn : c.toNat <;> exact absurd h (by decide)
  · rwa [if_neg hc] at h

theorem hasDoubleHyphen_tail {c : Char} {cs : GoStr}
    (h : hasDoubleHyphen (c :: cs) = false) : hasDoubleHyphen cs = false := by
  cases cs with
  | nil => rfl
  | cons d ds =>
    rw [hasDoubleHyphen] at h
    exact (Bool.or_eq_false_iff.mp h).2

theorem toPascalAux_no_hyphen :
    ∀ s : GoStr, hasDoubleHyphen s = false →
      ('-' ∉ toPascalAux false s) ∧ (s.head? ≠ some '-' → '-' ∉ toPascalAux true s) := by
  intro s
  induction s with
  | nil => simp [toPascalAux]
  | cons c cs ih =>
    intro hnd
    have hnd' : hasDoubleHyphen cs = false := hasDoubleHyphen_tail hnd
    have htrue : c ≠ '-' → '-' ∉ toPascalAux true (c :: cs) := by
      intro hc
      rw [toPascalAux]
      intro hmem
      rcases List.mem_cons.mp hmem with heq | htail
      · exact hc (asciiToUpper_eq_hyphen heq.symm)
      · exact (ih hnd').1 htail
    constructor
    · by_cases hc : c = '-'
      · subst hc
        rw [toPascalAux, if_pos rfl]
        apply (ih hnd').2
        cases cs with
        | nil => simp
        | cons d ds =>
          rw [hasDoubleHyphen] at hnd
          have hd : d ≠ '-' := by
            intro hdd
            subst hdd
            simp at hnd
          simpa using hd
      · rw [toPascalAux, if_neg hc]
        intro hmem
        rcases List.mem_cons.mp hmem with heq | htail
        · exact hc heq.symm
        · exact (ih hnd').1 htail
    · intro hhead
      have hc : c ≠ '-' := by
        intro h; rw [h] at hhead; exact hhead rfl
      exact htrue hc

theorem toPascalAux_double_hyphen :
    ∀ s : GoStr, hasDoubleHyphen s = true → ∀ b, '-' ∈ toPascalAux b s := by
  intro s
  induction s with
  | nil => intro h; exact absurd h (by decide)
  | cons c cs ih =>
    intro hdd b
    cases cs with
    | nil => exact absurd hdd (by simp [hasDoubleHyphen])
    | cons d ds =>
      rw [hasDoubleHyphen] at hdd
      rcases Bool.or_eq_true_iff.mp hdd with hpair | hrest
      · have hc : c = '-' := by
          have := (Bool.and_eq_true_iff.mp hpair).1; simpa using this
        have hd : d = '-' := by
          have := (Bool.and_eq_true_iff.mp hpair).2; simpa using this
        subst hc; subst hd
        cases b with
        | true =>
          rw [toPascalAux]
          exact List.mem_cons_self _ _
        | false =>
          rw [toPascalAux, if_pos rfl, toPascalAux]
          exact List.mem_cons_self _ _
      · cases b with
        | true =>
          rw [toPascalAux]
          exact List.mem_cons_of_mem _ (ih hrest false)
        | false =>
          by_cases hc : c = '-'
          · rw [toPascalAux, if_pos hc]
            exact ih hrest true
          · rw [toPascalAux, if_neg hc]
            exact List.mem_cons_of_mem _ (ih hrest false)

/-- C10 (counterexample): the claim fails for inputs whose hyphens are all
isolated but which *begin* with a hyphen: `ToPascalCase "-a"` emits the
leading hyphen (it is read while the upper-case flag is set) and returns
`"-a"`, which still contains a hyphen. -/
theorem toPascalCase_leading_hyphen :
    ToPascalCase (gs "-a") = gs "-a"
    ∧ hasDoubleHyphen (gs "-a") = false
    ∧ '-' ∈ ToPascalCase (gs "-a")
    ∧ ToPascalCase (gs "a--b") = gs "A-b" := by
  refine ⟨by decide, by decide, by decide, by decide⟩

/-- C10 (amended): `ToPascalCase` removes each isolated hyphen and
upper-cases its successor, so every input with no two adjacent hyphens
*that does not begin with a hyphen* yields an output with no hyphen; an
input containing two consecutive hyphens has the second hyphen emitted into
the output, and an input beginning with a hyphen has that hyphen emitted,
so in both cases the result still contains a hyphen and is not a valid Go
identifier. -/
theorem toPascalCase_hyphen_behavior :
    (∀ s : GoStr, hasDoubleHyphen s = false → s.head? ≠ some '-' →
      '-' ∉ ToPascalCase s)
    ∧ (∀ s : GoStr, hasDoubleHyphen s = true → '-' ∈ ToPascalCase s)
    ∧ (∀ s : GoStr, '-' ∈ ToPascalCase ('-' :: s)) := by
  refine ⟨?_, ?_, ?_⟩
  · intro s hnd hhead
    exact (toPascalAux_no_hyphen s hnd).2 hhead
  · intro s hdd
    exact toPascalAux_double_hyphen s hdd true
  · intro s
    show '-' ∈ toPascalAux true ('-' :: s)
    rw [toPascalAux]
    have : asciiToUpper '-' = '-' := by decide
    rw [this]
    exact List.mem_cons_self _ _

/-- C10 (witness): `ToPascalCase "ab-cd" = "AbCd"` contains no hyphen, and
`ToPascalCase "a--b"` contains one. -/
theorem toPascalCase_hyphen_behavior_witness :
    ('-' ∉ ToPascalCase (gs "ab-cd")) ∧ ('-' ∈ ToPascalCase (gs "a--b")) :=
  ⟨toPascalCase_hyphen_behavior.1 (gs "ab-cd") (by decide) (by decide),
    toPascalCase_hyphen_behavior.2.1 (gs "a--b") (by decide)⟩

/-- Field type enumeration (the spec's closed enumeration: String, Integer,
Boolean, Float, Composite, List-of-scalar; the source references
`FieldString` and `FieldStruct` directly). -/
inductive FieldType where
  | FieldString
  | FieldInt
  | FieldBool
  | FieldFloat
  | FieldStruct
  | FieldList
  deriving DecidableEq, Inhabited

/-- `APISpecField` (internal/workload/v1): a single field in a custom API
type. -/
structure APISpecField where
  FieldName : GoStr
  ManifestFieldName : GoStr
  DataType : FieldType
  DefaultVal : GoStr
  ZeroVal : GoStr
  APISpecContent : GoStr
  SampleField : GoStr
  DocumentationLines : List GoStr
  deriving DecidableEq, Inhabited

/-
The `SetResources` merge of WorkloadCollection (collection.go) operates on
`[]*APISpecField` — slices of *pointers*.  To capture Go's aliasing we model
the pointer store explicitly: a heap of `APISpecField` values addressed by
indices, with field lists being lists of addresses.
-/

/-- Pointer store for `*APISpecField` values. -/
abbrev FieldHeap := List APISpecField

/-- A `*APISpecField` pointer. -/
abbrev FieldPtr := Nat

/-- Dereference a pointer (out-of-range reads give the default value; all
pointers used by the modelled code are in range). -/
def heapGet (h : FieldHeap) (p : FieldPtr) : APISpecField := h.getD p default

/-- Write through a pointer. -/
def heapSet (h : FieldHeap) (p : FieldPtr) (v : APISpecField) : FieldHeap := h.set p v

/-- One iteration of the inner loop of `WorkloadCollection.SetResources`
over the merged `specFields`: on a field-name match, a non-empty
documentation of the component field `csf` is written through the shared
pointer `sf`, and the field is marked present. -/
def mergeFieldStep (csf : FieldPtr) (acc : FieldHeap × Bool) (sf : FieldPtr) : FieldHeap × Bool :=
  if (heapGet acc.1 sf).FieldName = (heapGet acc.1 csf).FieldName then
    (if (heapGet acc.1 csf).DocumentationLines ≠ [] then
        heapSet acc.1 sf
          { heapGet acc.1 sf with DocumentationLines := (heapGet acc.1 csf).DocumentationLines }
      else acc.1,
      true)
  else acc

/-- The inner loop of `SetResources` for one component field. -/
def mergeField (h : FieldHeap) (specFields : List FieldPtr) (csf : FieldPtr) :
    FieldHeap × Bool :=
  specFields.foldl (mergeFieldStep csf) (h, false)

/-- One iteration of the middle loop of `SetResources`: a component field
not present by name is appended (as a pointer) to the merged list. -/
def mergeComponentStep (acc : FieldHeap × List FieldPtr) (csf : FieldPtr) :
    FieldHeap × List FieldPtr :=
  let r := mergeField acc.1 acc.2 csf
  (r.1, if r.2 then acc.2 else acc.2 ++ [csf])

/-- Merging one component's `SpecFields` into the accumulated merged list. -/
def mergeComponent (acc : FieldHeap × List FieldPtr) (csfs : List FieldPtr) :
    FieldHeap × List FieldPtr :=
  csfs.foldl mergeComponentStep acc

/-- The schema-merge portion of `WorkloadCollection.SetResources`
(collection.go): starting from the collection's own `SpecFields`, merge
each component's `SpecFields` in order. -/
def SetResourcesMerge (h : FieldHeap) (collectionFields : List FieldPtr)
    (components : List (List FieldPtr)) : FieldHeap × List FieldPtr :=
  components.foldl mergeComponent (h, collectionFields)

/-- Equality of every `APISpecField` field except `DocumentationLines`. -/
def nonDocEqual (a b : APISpecField) : Prop :=
  a.FieldName = b.FieldName ∧ a.ManifestFieldName = b.ManifestFieldName
    ∧ a.DataType = b.DataType ∧ a.DefaultVal = b.DefaultVal
    ∧ a.ZeroVal = b.ZeroVal ∧ a.APISpecContent = b.APISpecContent
    ∧ a.SampleField = b.SampleField

theorem nonDocEqual_refl (a : APISpecField) : nonDocEqual a a :=
  ⟨rfl, rfl, rfl, rfl, rfl, rfl, rfl⟩

theorem nonDocEqual_trans {a b c : APISpecField}
    (h₁ : nonDocEqual a b) (h₂ : nonDocEqual b c) : nonDocEqual a c := by
  obtain ⟨a1, a2, a3, a4, a5, a6, a7⟩ := h₁
  obtain ⟨b1, b2, b3, b4, b5, b6, b7⟩ := h₂
  exact ⟨a1.trans b1, a2.trans b2, a3.trans b3, a4.trans b4,
    a5.trans b5, a6.trans b6, a7.trans b7⟩

/-- The doc-frame relation: same heap length, and every cell unchanged
except possibly its `DocumentationLines`. -/
def docFrame (h' h : FieldHeap) : Prop :=
  h'.length = h.length ∧ ∀ p, nonDocEqual (heapGet h' p) (heapGet h p)

theorem docFrame_refl (h : FieldHeap) : docFrame h h :=
  ⟨rfl, fun _ => nonDocEqual_refl _⟩

theorem docFrame_trans {h₁ h₂ h₃ : FieldHeap}
    (a : docFrame h₁ h₂) (b : docFrame h₂ h₃) : docFrame h₁ h₃ :=
  ⟨a.1.trans b.1, fun p => nonDocEqual_trans (a.2 p) (b.2 p)⟩

theorem heapSet_doc_docFrame (h : FieldHeap) (p : FieldPtr) (d : List GoStr) :
    docFrame (heapSet h p { heapGet h p with DocumentationLines := d }) h := by
  constructor
  · simp [heapSet]
  · intro q
    by_cases hpq : p = q
    · subst hpq
      by_cases hlt : p < h.length
      · unfold heapGet heapSet
        rw [List.getD_eq_getElem?_getD, List.getElem?_set_self hlt]
        rw [List.getD_eq_getElem?_getD]
        exact ⟨rfl, rfl, rfl, rfl, rfl, rfl, rfl⟩
      · unfold heapGet heapSet
        rw [List.set_eq_of_length_le (Nat.le_of_not_lt hlt)]
        exact nonDocEqual_refl _
    · unfold heapGet heapSet
      rw [List.getD_eq_getElem?_getD, List.getElem?_set_ne hpq,
        ← List.getD_eq_getElem?_getD]
      exact nonDocEqual_refl _

theorem mergeFieldStep_docFrame (csf sf : FieldPtr) (acc : FieldHeap × Bool) :
    docFrame (mergeFieldStep csf acc sf).1 acc.1 := by
  unfold mergeFieldStep
  by_cases hname : (heapGet acc.1 sf).FieldName = (heapGet acc.1 csf).FieldName
  · rw [if_pos hname]
    by_cases hdoc : (heapGet acc.1 csf).DocumentationLines ≠ []
    · rw [if_pos hdoc]
      exact heapSet_doc_docFrame _ _ _
    · rw [if_neg hdoc]
      exact docFrame_refl _
  · rw [if_neg hname]
    exact docFrame_refl _

theorem mergeField_docFrame (h : FieldHeap) (sfs : List FieldPtr) (csf : FieldPtr) :
    docFrame (mergeField h sfs csf).1 h := by
  unfold mergeField
  suffices hgen : ∀ (l : List FieldPtr) (acc : FieldHeap × Bool),
      docFrame acc.1 h → docFrame (l.foldl (mergeFieldStep csf) acc).1 h by
    exact hgen sfs (h, false) (docFrame_refl h)
  intro l
  induction l with
  | nil => intro acc hacc; exact hacc
  | cons x xs ih =>
    intro acc hacc
    rw [List.foldl_cons]
    exact ih _ (docFrame_trans (mergeFieldStep_docFrame csf x acc) hacc)

theorem mergeComponent_docFrame (acc : FieldHeap × List FieldPtr) (csfs : List FieldPtr)
    (h0 : FieldHeap) (hacc : docFrame acc.1 h0) :
    docFrame (mergeComponent acc csfs).1 h0 := by
  induction csfs generalizing acc with
  | nil => exact hacc
  | cons x xs ih =>
    rw [mergeComponent, List.foldl_cons]
    apply ih
    exact docFrame_trans (mergeField_docFrame acc.1 acc.2 x) hacc

/-- C5 (amended, part of the corrected claim): the merge touches nothing
except documentation.  `SetResourcesMerge` preserves the number of
`APISpecField` objects and, for every pointer, every field except
`DocumentationLines` — so names, types, defaults and samples of collection
and component fields are never changed, while documentation may be
rewritten in place through the shared pointers. -/
theorem merge_frame_only_docs (h : FieldHeap) (cf : List FieldPtr)
    (comps : List (List FieldPtr)) :
    (SetResourcesMerge h cf comps).1.length = h.length
    ∧ ∀ p, nonDocEqual (heapGet (SetResourcesMerge h cf comps).1 p) (heapGet h p) := by
  suffices hgen : docFrame (SetResourcesMerge h cf comps).1 h from ⟨hgen.1, hgen.2⟩
  unfold SetResourcesMerge
  suffices hgen : ∀ (l : List (List FieldPtr)) (acc : FieldHeap × List FieldPtr),
      docFrame acc.1 h → docFrame (l.foldl mergeComponent acc).1 h by
    exact hgen comps (h, cf) (docFrame_refl h)
  intro l
  induction l with
  | nil => intro acc hacc; exact hacc
  | cons x xs ih =>
    intro acc hacc
    rw [List.foldl_cons]
    exact ih _ (mergeComponent_docFrame acc x h hacc)

/-- The field names designated by a pointer list, read in heap `h`. -/
def heapNames (h : FieldHeap) (l : List FieldPtr) : List GoStr :=
  l.map (fun p => (heapGet h p).FieldName)

theorem mergeField_foldl_snd (h0 : FieldHeap) (csf : FieldPtr) :
    ∀ (l : List FieldPtr) (acc : FieldHeap × Bool), docFrame acc.1 h0 →
      ((l.foldl (mergeFieldStep csf) acc).2 = true ↔
        acc.2 = true
          ∨ ∃ sf ∈ l, (heapGet h0 sf).FieldName = (heapGet h0 csf).FieldName) := by
  intro l
  induction l with
  | nil => intro acc _; simp
  | cons x xs ih =>
    intro acc hacc
    rw [List.foldl_cons,
      ih _ (docFrame_trans (mergeFieldStep_docFrame csf x acc) hacc)]
    have hx : (heapGet acc.1 x).FieldName = (heapGet h0 x).FieldName := (hacc.2 x).1
    have hcsf : (heapGet acc.1 csf).FieldName = (heapGet h0 csf).FieldName :=
      (hacc.2 csf).1
    by_cases hname : (heapGet acc.1 x).FieldName = (heapGet acc.1 csf).FieldName
    · have hsnd : (mergeFieldStep csf acc x).2 = true := by
        unfold mergeFieldStep
        rw [if_pos hname]
      have hP : (heapGet h0 x).FieldName = (heapGet h0 csf).FieldName := by
        rw [← hx, ← hcsf]; exact hname
      constructor
      · intro _
        exact Or.inr ⟨x, List.mem_cons_self x xs, hP⟩
      · intro _
        exact Or.inl hsnd
    · have hsnd : (mergeFieldStep csf acc x).2 = acc.2 := by
        unfold mergeFieldStep
        rw [if_neg hname]
      have hP : ¬ (heapGet h0 x).FieldName = (heapGet h0 csf).FieldName := by
        rw [← hx, ← hcsf]; exact hname
      rw [hsnd]
      constructor
      · rintro (hb | ⟨sf, hsf, hPsf⟩)
        · exact Or.inl hb
        · exact Or.inr ⟨sf, List.mem_cons_of_mem x hsf, hPsf⟩
      · rintro (hb | ⟨sf, hsf, hPsf⟩)
        · exact Or.inl hb
        · rcases List.mem_cons.mp hsf with heq | htail
          · subst heq; exact absurd hPsf hP
          · exact Or.inr ⟨sf, htail, hPsf⟩

theorem mergeField_snd (h0 h : FieldHeap) (hf : docFrame h h0)
    (sfs : List FieldPtr) (csf : FieldPtr) :
    ((mergeField h sfs csf).2 = true ↔
      ∃ sf ∈ sfs, (heapGet h0 sf).FieldName = (heapGet h0 csf).FieldName) := by
  unfold mergeField
  rw [mergeField_foldl_snd h0 csf sfs (h, false) hf]
  simp

theorem mergeComponent_invariant (h0 : FieldHeap) :
    ∀ (csfs : List FieldPtr) (acc : FieldHeap × List FieldPtr),
      docFrame acc.1 h0 → (heapNames h0 acc.2).Nodup →
      docFrame (mergeComponent acc csfs).1 h0
      ∧ (heapNames h0 (mergeComponent acc csfs).2).Nodup
      ∧ (∀ n ∈ heapNames h0 acc.2, n ∈ heapNames h0 (mergeComponent acc csfs).2)
      ∧ (∀ p ∈ csfs, (heapGet h0 p).FieldName ∈ heapNames h0 (mergeComponent acc csfs).2) := by
  intro csfs
  induction csfs with
  | nil =>
    intro acc hacc hnd
    refine ⟨hacc, hnd, fun n hn => hn, ?_⟩
    intro p hp; exact absurd hp (List.not_mem_nil p)
  | cons x xs ih =>
    intro acc hacc hnd
    rw [mergeComponent, List.foldl_cons]
    have hstepframe : docFrame (mergeComponentStep acc x).1 h0 :=
      docFrame_trans (mergeField_docFrame acc.1 acc.2 x) hacc
    have hpresent := mergeField_snd h0 acc.1 hacc acc.2 x
    have hlist : (mergeComponentStep acc x).2
        = if (mergeField acc.1 acc.2 x).2 then acc.2 else acc.2 ++ [x] := rfl
    have hsub : ∀ n ∈ heapNames h0 acc.2, n ∈ heapNames h0 (mergeComponentStep acc x).2 := by
      intro n hn
      rw [hlist]
      by_cases hb : (mergeField acc.1 acc.2 x).2
      · rwa [if_pos hb]
      · rw [if_neg hb]
        unfold heapNames at hn ⊢
        rw [List.map_append]
        exact List.mem_append_left _ hn
    have hxmem : (heapGet h0 x).FieldName ∈ heapNames h0 (mergeComponentStep acc x).2 := by
      rw [hlist]
      by_cases hb : (mergeField acc.1 acc.2 x).2
      · rw [if_pos hb]
        obtain ⟨sf, hsf, hPsf⟩ := hpresent.mp hb
        unfold heapNames
        exact List.mem_map.mpr ⟨sf, hsf, hPsf.symm ▸ rfl⟩
      · rw [if_neg hb]
        unfold heapNames
        rw [List.map_append]
        exact List.mem_append_right _ (by simp)
    have hnd' : (heapNames h0 (mergeComponentStep acc x).2).Nodup := by
      rw [hlist]
      by_cases hb : (mergeField acc.1 acc.2 x).2
      · rwa [if_pos hb]
      · rw [if_neg hb]
        have hnotin : (heapGet h0 x).FieldName ∉ heapNames h0 acc.2 := by
          intro hmem
          obtain ⟨sf, hsf, hPsf⟩ := List.mem_map.mp hmem
          exact hb (hpresent.mpr ⟨sf, hsf, hPsf⟩)
        unfold heapNames
        rw [List.map_append]
        simp only [List.map_cons, List.map_nil]
        rw [List.nodup_append]
        exact ⟨hnd, List.nodup_singleton _, by
          intro a ha hb'
          simp only [List.mem_singleton] at hb'
          subst hb'
          exact hnotin ha⟩
    obtain ⟨f1, f2, f3, f4⟩ := ih (mergeComponentStep acc x) hstepframe hnd'
    refine ⟨f1, f2, ?_, ?_⟩
    · intro n hn
      exact f3 n (hsub n hn)
    · intro p hp
      rcases List.mem_cons.mp hp with heq | htail
      · subst heq
        exact f3 _ hxmem
      · exact f4 p htail

theorem heapNames_congr {h' h : FieldHeap} (hf : docFrame h' h) (l : List FieldPtr) :
    heapNames h' l = heapNames h l := by
  unfold heapNames
  exact List.map_congr_left fun p _ => (hf.2 p).1

theorem setResourcesMerge_invariant (h : FieldHeap) (cf : List FieldPtr)
    (comps : List (List FieldPtr)) (hnd : (heapNames h cf).Nodup) :
    docFrame (SetResourcesMerge h cf comps).1 h
    ∧ (heapNames h (SetResourcesMerge h cf comps).2).Nodup
    ∧ ∀ comp ∈ comps, ∀ p ∈ comp,
        (heapGet h p).FieldName ∈ heapNames h (SetResourcesMerge h cf comps).2 := by
  unfold SetResourcesMerge
  suffices hgen : ∀ (l : List (List FieldPtr)) (acc : FieldHeap × List FieldPtr),
      docFrame acc.1 h → (heapNames h acc.2).Nodup →
      docFrame (l.foldl mergeComponent acc).1 h
      ∧ (heapNames h (l.foldl mergeComponent acc).2).Nodup
      ∧ (∀ n ∈ heapNames h acc.2, n ∈ heapNames h (l.foldl mergeComponent acc).2)
      ∧ ∀ comp ∈ l, ∀ p ∈ comp,
          (heapGet h p).FieldName ∈ heapNames h (l.foldl mergeComponent acc).2 by
    obtain ⟨a, b, _, d⟩ := hgen comps (h, cf) (docFrame_refl h) hnd
    exact ⟨a, b, d⟩
  intro l
  induction l with
  | nil =>
    intro acc h1 h2
    exact ⟨h1, h2, fun n hn => hn, fun comp hc => absurd hc (List.not_mem_nil _)⟩
  | cons x xs ih =>
    intro acc h1 h2
    rw [List.foldl_cons]
    obtain ⟨m1, m2, m3, m4⟩ := mergeComponent_invariant h x acc h1 h2
    obtain ⟨g1, g2, g3, g4⟩ := ih (mergeComponent acc x) m1 m2
    refine ⟨g1, g2, fun n hn => g3 n (m3 n hn), ?_⟩
    intro comp hcomp p hp
    rcases List.mem_cons.mp hcomp with heq | htail
    · subst heq; exact g3 _ (m4 p hp)
    · exact g4 comp htail p hp

/-- C4 (counterexample): the claim's "first non-empty documentation wins"
fails.  With component A supplying field `timeout` documented
`Request timeout` and a *later* component B supplying the same field
documented `From B`, the merged field's documentation is overwritten to
`From B` — the last non-empty documentation wins, not the first. -/
theorem merge_doc_last_wins_not_first :
    (heapGet (SetResourcesMerge
        [⟨gs "timeout", gs "timeout", FieldType.FieldString, [], [], [], [],
            [gs "Request timeout"]⟩,
          ⟨gs "timeout", gs "timeout", FieldType.FieldString, [], [], [], [],
            [gs "From B"]⟩] [] [[0], [1]]).1 0).DocumentationLines
      = [gs "From B"] := by
  decide

/-- C4 (amended): a field appearing in components is included exactly once
in the merged list (assuming the collection's own field names are
duplicate-free), and the *last* non-empty documentation encountered across
the components wins: a later component's non-empty documentation overwrites
the merged node in place, while an empty one leaves it unchanged — so in
the scenario where component A supplies `timeout` with description
`Request timeout` and a later component B supplies the same field with no
description, the merged field's documentation remains `Request timeout`. -/
theorem merge_field_once_and_doc_rule :
    (∀ (h : FieldHeap) (cf : List FieldPtr) (comps : List (List FieldPtr)),
      (heapNames h cf).Nodup →
        (heapNames h (SetResourcesMerge h cf comps).2).Nodup
        ∧ heapNames (SetResourcesMerge h cf comps).1 (SetResourcesMerge h cf comps).2
            = heapNames h (SetResourcesMerge h cf comps).2
        ∧ ∀ comp ∈ comps, ∀ p ∈ comp,
            (heapGet h p).FieldName ∈ heapNames h (SetResourcesMerge h cf comps).2)
    ∧ (∀ fA fB : APISpecField, fA.FieldName = fB.FieldName →
        (SetResourcesMerge [fA, fB] [] [[0], [1]]).2 = [0]
        ∧ (heapGet (SetResourcesMerge [fA, fB] [] [[0], [1]]).1 0).DocumentationLines
            = (if fB.DocumentationLines = [] then fA.DocumentationLines
                else fB.DocumentationLines)) := by
  constructor
  · intro h cf comps hnd
    obtain ⟨hframe, hnodup, hmem⟩ := setResourcesMerge_invariant h cf comps hnd
    refine ⟨hnodup, heapNames_congr hframe _, ?_⟩
    intro comp hcomp p hp
    exact hmem comp hcomp p hp
  · intro fA fB hname
    by_cases hdB : fB.DocumentationLines = []
    · constructor <;>
        simp [SetResourcesMerge, mergeComponent, mergeComponentStep, mergeField,
          mergeFieldStep, heapGet, heapSet, hname, hdB]
    · constructor <;>
        simp [SetResourcesMerge, mergeComponent, mergeComponentStep, mergeField,
          mergeFieldStep, heapGet, heapSet, hname, hdB]

/-- C4 (witness): the specified scenario — component B supplies `timeout`
with no description — leaves the merged documentation at
`Request timeout`. -/
theorem merge_field_once_and_doc_rule_witness :
    (SetResourcesMerge
        [⟨gs "timeout", gs "timeout", FieldType.FieldString, [], [], [], [],
            [gs "Request timeout"]⟩,
          ⟨gs "timeout", gs "timeout", FieldType.FieldString, [], [], [], [],
            []⟩] [] [[0], [1]]).2 = [0]
    ∧ (heapGet (SetResourcesMerge
        [⟨gs "timeout", gs "timeout", FieldType.FieldString, [], [], [], [],
            [gs "Request timeout"]⟩,
          ⟨gs "timeout", gs "timeout", FieldType.FieldString, [], [], [], [],
            []⟩] [] [[0], [1]]).1 0).DocumentationLines
        = (if ([] : List GoStr) = [] then [gs "Request timeout"] else []) :=
  merge_field_once_and_doc_rule.2
    ⟨gs "timeout", gs "timeout", FieldType.FieldString, [], [], [], [],
      [gs "Request timeout"]⟩
    ⟨gs "timeout", gs "timeout", FieldType.FieldString, [], [], [], [], []⟩
    (by decide)

/-- C5 (counterexample): the merge *does* mutate the per-component schemas.
The merged list is the pointer list `[0]`, aliasing component A's own
`APISpecField`, and after the merge the object at that pointer has had its
`DocumentationLines` rewritten in place from `Request timeout` (its
pre-merge value) to component B's `From B`. -/
theorem merge_mutates_component_field :
    (SetResourcesMerge
        [⟨gs "timeout", gs "timeout", FieldType.FieldString, [], [], [], [],
            [gs "Request timeout"]⟩,
          ⟨gs "timeout", gs "timeout", FieldType.FieldString, [], [], [], [],
            [gs "From B"]⟩] [] [[0], [1]]).2 = [0]
    ∧ (heapGet [(⟨gs "timeout", gs "timeout", FieldType.FieldString, [], [], [], [],
            [gs "Request timeout"]⟩ : APISpecField),
          ⟨gs "timeout", gs "timeout", FieldType.FieldString, [], [], [], [],
            [gs "From B"]⟩] 0).DocumentationLines = [gs "Request timeout"]
    ∧ (heapGet (SetResourcesMerge
        [⟨gs "timeout", gs "timeout", FieldType.FieldString, [], [], [], [],
            [gs "Request timeout"]⟩,
          ⟨gs "timeout", gs "timeout", FieldType.FieldString, [], [], [], [],
            [gs "From B"]⟩] [] [[0], [1]]).1 0).DocumentationLines
        ≠ [gs "Request timeout"] := by
  refine ⟨by decide, by decide, by decide⟩

/-- A Go literal value (the `interface{}` payload carried by markers as a
default or original value). -/
inductive GoValue where
  | str (s : GoStr)
  | int (n : Int)
  | bool (b : Bool)
  deriving DecidableEq

/-- Go `fmt.Sprintf("%v", n)` for an integer. -/
def formatIntGo (n : Int) : GoStr :=
  if n < 0 then '-' :: natDecimal n.natAbs else natDecimal n.natAbs

/-- Go `fmt.Sprintf("%v", v)` for the modelled values: strings print raw,
integers in decimal, booleans as `true`/`false`. -/
def sprintfV : GoValue → GoStr
  | .str s => s
  | .int n => formatIntGo n
  | .bool b => if b then gs "true" else gs "false"

/-- `%q` escaping for one character: quote and backslash are escaped;
control-character escapes are not modelled (all modelled inputs are
printable ASCII). -/
def goEscapeChar (c : Char) : GoStr :=
  if c = '"' then ['\\', '"'] else if c = '\\' then ['\\', '\\'] else [c]

/-- Go `fmt.Sprintf("%q", v)`.  For a string value this is the
double-quoted escaped form; a non-string operand (which a String-typed
marker never carries) is approximated by quoting its `%v` form. -/
def sprintfQ : GoValue → GoStr
  | .str s => '"' :: (s.map goEscapeChar).flatten ++ ['"']
  | v => '"' :: ((sprintfV v).map goEscapeChar).flatten ++ ['"']

/-- `APISpecField.setSampleAndDefault` (internal/workload/v1): a String
field renders `%q`-quoted into both `DefaultVal` and `SampleField`; every
other type renders its `%v` literal form. -/
def setSampleAndDefault (api : APISpecField) (name : GoStr) (value : GoValue) :
    APISpecField :=
  if api.DataType = FieldType.FieldString then
    { api with DefaultVal := sprintfQ value,
               SampleField := name ++ gs ": " ++ sprintfQ value }
  else
    { api with DefaultVal := sprintfV value,
               SampleField := name ++ gs ": " ++ sprintfV value }

/-- A classified field marker (internal/workload/v1 `FieldMarker` /
`CollectionFieldMarker`; both carry the same data: name, declared type —
the Go field `Type`, here `FType` —, optional description, optional
default, and the original in-place value). -/
structure FieldMarker where
  Name : GoStr
  FType : FieldType
  Description : Option GoStr
  Default : Option GoValue
  originalValue : GoValue
  deriving DecidableEq

/-- One inspection result (`inspect.YAMLResult.Object`): a field marker, a
collection field marker, or any other object (skipped). -/
inductive MarkerResult where
  | fieldMarker (m : FieldMarker)
  | collectionFieldMarker (m : FieldMarker)
  | other
  deriving DecidableEq

/-- Go `strings.Split(s, string(sep))` for a one-character separator. -/
def splitOnCharGo (sep : Char) : GoStr → List GoStr
  | [] => [[]]
  | c :: cs =>
    if c = sep then [] :: splitOnCharGo sep cs
    else
      match splitOnCharGo sep cs with
      | [] => [[c]]
      | g :: rest => (c :: g) :: rest

/-- `APIFields` (internal/workload/v1): a node of the hierarchical API
field tree (the Go field `Type` is `FType` here). -/
structure APIFields where
  Name : GoStr
  FType : FieldType
  Tags : GoStr
  Comments : List GoStr
  Markers : List GoStr
  Sample : GoStr
  DefaultVal : GoStr
  StructName : GoStr
  Children : List APIFields

instance : Inhabited APIFields :=
  ⟨⟨[], FieldType.FieldStruct, [], [], [], [], [], [], []⟩⟩

/-- Modelled from the spec: the leaf node built by the Field Schema Builder
for one marker (§4.3) — `AddField` itself is not among the provided
sources.  The sample and default render exactly as
`setSampleAndDefault` does: String-typed fields quoted, all other types in
their natural literal form; the rendering is the same whether the value
came from an explicit default or from the original literal. -/
def mkLeafField (name : GoStr) (ty : FieldType) (comments : List GoStr)
    (sampleVal : GoValue) : APIFields :=
  { Name := name, FType := ty, Tags := [], Comments := comments, Markers := [],
    Sample := name ++ gs ": "
      ++ (if ty = FieldType.FieldString then sprintfQ sampleVal else sprintfV sampleVal),
    DefaultVal :=
      (if ty = FieldType.FieldString then sprintfQ sampleVal else sprintfV sampleVal),
    StructName := [], Children := [] }

/-- Modelled from the spec: terminal-segment insertion of the Field Schema
Builder (§4.3): an existing sibling of the same name with a conflicting
type is a compile error; with an identical type it is a no-op merge where
a non-empty description wins over an empty one; otherwise a new leaf is
appended. -/
def upsertLeaf (ty : FieldType) (comments : List GoStr) (v : GoValue)
    (last : GoStr) : List APIFields → Except GoStr (List APIFields)
  | [] => .ok [mkLeafField last ty comments v]
  | c :: cs =>
    if c.Name = last then
      if c.FType ≠ ty then .error (gs "duplicate field with conflicting type")
      else .ok ((if c.Comments = [] ∧ comments ≠ [] then { c with Comments := comments }
                 else c) :: cs)
    else
      match upsertLeaf ty comments v last cs with
      | .error e => .error e
      | .ok cs' => .ok (c :: cs')

/-- Modelled from the spec: dotted-path insertion of the Field Schema
Builder (§4.3, §9): descend into (or create) Composite intermediates along
the path; conflict detection happens at the terminal segment only. -/
def addFieldAtPath (ty : FieldType) (comments : List GoStr) (v : GoValue) :
    List GoStr → APIFields → Except GoStr APIFields
  | [], _ => .error (gs "empty field path")
  | [last], node =>
    match upsertLeaf ty comments v last node.Children with
    | .error e => .error e
    | .ok cs => .ok { node with Children := cs }
  | seg :: next :: rest, node =>
    match node.Children.findIdx? (fun c => c.Name == seg) with
    | some i =>
      match addFieldAtPath ty comments v (next :: rest) (node.Children.getD i default) with
      | .error e => .error e
      | .ok child => .ok { node with Children := node.Children.set i child }
    | none =>
      match addFieldAtPath ty comments v (next :: rest)
          { Name := seg, FType := FieldType.FieldStruct, Tags := [], Comments := [],
            Markers := [], Sample := [], DefaultVal := [], StructName := [],
            Children := [] } with
      | .error e => .error e
      | .ok child => .ok { node with Children := node.Children ++ [child] }

/-- Modelled from the spec: `APIFields.AddField` (the signature and the
call sites are in the provided sources; the body is reconstructed from
§4.3).  The boolean records whether an explicit default was found; it does
not change the rendering, which §4.3 specifies identically for both
sources of the sample value. -/
def AddField (root : APIFields) (name : GoStr) (ty : FieldType)
    (comments : List GoStr) (sampleVal : GoValue) (_hasDefault : Bool) :
    Except GoStr APIFields :=
  addFieldAtPath ty comments sampleVal (splitOnCharGo '.' name) root

/-- The sample-value/default selection of `processMarkerResults`
(internal/workload/v1): an explicit marker default wins; otherwise the
original literal value found at the marker's position is used and
`defaultFound` stays false. -/
def markerSampleVal (m : FieldMarker) : GoValue × Bool :=
  match m.Default with
  | some d => (d, true)
  | none => (m.originalValue, false)

/-- The comment extraction of `processMarkerResults`: a present description
is split on newlines. -/
def markerComments (m : FieldMarker) : List GoStr :=
  match m.Description with
  | none => []
  | some d => splitOnCharGo '\n' d

/-- One iteration of `processMarkerResults` (internal/workload/v1): a
`FieldMarker` is skipped when processing a collection's non-resource pass
(`collection && !collectionResources`); a `CollectionFieldMarker` is
skipped unless processing a collection (`!collection`); anything else is
skipped. -/
def processMarkerResult (col colRes : Bool) (fields : APIFields) :
    MarkerResult → Except GoStr APIFields
  | .fieldMarker r =>
    if col && !colRes then .ok fields
    else AddField fields r.Name r.FType (markerComments r) (markerSampleVal r).1
      (markerSampleVal r).2
  | .collectionFieldMarker r =>
    if !col then .ok fields
    else AddField fields r.Name r.FType (markerComments r) (markerSampleVal r).1
      (markerSampleVal r).2
  | .other => .ok fields

/-- `processMarkerResults` (internal/workload/v1): fold the marker results
into the API field tree, stopping at the first error. -/
def processMarkerResults (col colRes : Bool) (fields : APIFields) :
    List MarkerResult → Except GoStr APIFields
  | [] => .ok fields
  | r :: rs =>
    match processMarkerResult col colRes fields r with
    | .error e => .error e
    | .ok f => processMarkerResults col colRes f rs

/-- The compatibility rewrite of `processMarkers` (internal/workload/v1,
manifest content step): only when processing manifests for collection
resources (`ws.collection && ws.collectionResources`) is the collection
marker token `!!var collection` substituted by the field-marker token
`!!var parent`. -/
def rewriteCollectionMarkers (col colRes : Bool) (content : GoStr) : GoStr :=
  if col && colRes then
    replaceAllGo (gs "!!var collection") (gs "!!var parent") content
  else content

/-- The root `Spec` node installed by `WorkloadSpec.init`
(internal/workload/v1). -/
def initWorkloadSpecFields : APIFields :=
  { Name := gs "Spec", FType := FieldType.FieldStruct,
    Tags := gs "`json: \"spec\"`", Comments := [], Markers := [],
    Sample := gs "spec:", DefaultVal := [], StructName := [], Children := [] }

/-- C7: for every marker without an explicit default, the original literal
value is used as both the default and the sample: the selection rule of
`processMarkerResults` takes the original value with `defaultFound` false,
and `setSampleAndDefault` renders a String-typed field quoted and every
other type in its natural literal form — in particular an Integer field
`replicas` with original value `3` yields `DefaultVal "3"` and
`SampleField "replicas: 3"`, and a String field `name` with original value
`widget` yields `DefaultVal "\"widget\""` and
`SampleField "name: \"widget\""`. -/
theorem sample_default_from_original :
    (∀ m : FieldMarker, m.Default = none →
      markerSampleVal m = (m.originalValue, false))
    ∧ (∀ (api : APISpecField) (name s : GoStr),
        api.DataType = FieldType.FieldString →
          (setSampleAndDefault api name (.str s)).DefaultVal = sprintfQ (.str s)
          ∧ (setSampleAndDefault api name (.str s)).SampleField
              = name ++ gs ": " ++ sprintfQ (.str s))
    ∧ (∀ (api : APISpecField) (name : GoStr) (v : GoValue),
        api.DataType ≠ FieldType.FieldString →
          (setSampleAndDefault api name v).DefaultVal = sprintfV v
          ∧ (setSampleAndDefault api name v).SampleField
              = name ++ gs ": " ++ sprintfV v)
    ∧ (setSampleAndDefault { (default : APISpecField) with DataType := FieldType.FieldInt }
        (gs "replicas") (.int 3)).DefaultVal = gs "3"
    ∧ (setSampleAndDefault { (default : APISpecField) with DataType := FieldType.FieldInt }
        (gs "replicas") (.int 3)).SampleField = gs "replicas: 3"
    ∧ (setSampleAndDefault { (default : APISpecField) with DataType := FieldType.FieldString }
        (gs "name") (.str (gs "widget"))).DefaultVal = gs "\"widget\""
    ∧ (setSampleAndDefault { (default : APISpecField) with DataType := FieldType.FieldString }
        (gs "name") (.str (gs "widget"))).SampleField = gs "name: \"widget\"" := by
  refine ⟨?_, ?_, ?_, by decide, by decide, by decide, by decide⟩
  · intro m hm
    unfold markerSampleVal
    rw [hm]
  · intro api name s hstr
    unfold setSampleAndDefault
    rw [if_pos hstr]
    exact ⟨rfl, rfl⟩
  · intro api name v hne
    unfold setSampleAndDefault
    rw [if_neg hne]
    exact ⟨rfl, rfl⟩

/-- C7 (witness): the selection rule and both renderings instantiated at
the scenario's markers. -/
theorem sample_default_from_original_witness :
    markerSampleVal
        ⟨gs "replicas", FieldType.FieldInt, none, none, .int 3⟩
      = (.int 3, false)
    ∧ (setSampleAndDefault { (default : APISpecField) with DataType := FieldType.FieldString }
        (gs "name") (.str (gs "widget"))).DefaultVal = sprintfQ (.str (gs "widget")) :=
  ⟨sample_default_from_original.1
      ⟨gs "replicas", FieldType.FieldInt, none, none, .int 3⟩ rfl,
    (sample_default_from_original.2.1
      { (default : APISpecField) with DataType := FieldType.FieldString } (gs "name") (gs "widget")
      rfl).1⟩

/-- C6 (counterexample): collection markers encountered while processing
component documents are *not* re-mapped.  The substitution of
`!!var collection` by `!!var parent` happens only in the collection's own
resource pass (`collection && collectionResources`); in a component-only
pass the token is left untouched, and in the collection's component pass
(`collection` set, `collectionResources` unset) the collection marker is
instead added to the collection schema. -/
theorem rewrite_not_applied_component_pass :
    rewriteCollectionMarkers true false (gs "!!var collection") = gs "!!var collection"
    ∧ rewriteCollectionMarkers false false (gs "!!var collection") = gs "!!var collection"
    ∧ rewriteCollectionMarkers true true (gs "!!var collection") = gs "!!var parent"
    ∧ processMarkerResults true false initWorkloadSpecFields
        [.collectionFieldMarker
          ⟨gs "test", FieldType.FieldString, none, none, .str (gs "x")⟩]
      ≠ .ok initWorkloadSpecFields := by
  refine ⟨by decide, by decide, by decide, ?_⟩
  intro h
  have h' := congrArg
    (fun r => match r with
      | Except.ok t => t.Children.length
      | Except.error _ => 0) h
  simp [processMarkerResults, processMarkerResult, AddField, addFieldAtPath,
    upsertLeaf, splitOnCharGo, initWorkloadSpecFields, gs] at h'

/-- C6 (amended): marker scoping as implemented: (1) a
`CollectionFieldMarker` contributes to a schema only when the unit being
processed is collection-scoped (`collection` set) — otherwise it is
skipped; (2) a `FieldMarker` never contributes during a collection's
non-resource pass (`collection` set, `collectionResources` unset); (3) the
compatibility substitution of the collection-marker token
`!!var collection` by the field-marker token `!!var parent` is applied
exactly when processing the collection's own resource documents
(`collection` and `collectionResources` both set), and never in
component-document passes. -/
theorem marker_scoping :
    (∀ (colRes : Bool) (fields : APIFields) (r : FieldMarker)
        (rest : List MarkerResult),
      processMarkerResults false colRes fields (.collectionFieldMarker r :: rest)
        = processMarkerResults false colRes fields rest)
    ∧ (∀ (fields : APIFields) (r : FieldMarker) (rest : List MarkerResult),
      processMarkerResults true false fields (.fieldMarker r :: rest)
        = processMarkerResults true false fields rest)
    ∧ (∀ content : GoStr,
      rewriteCollectionMarkers true true content
        = replaceAllGo (gs "!!var collection") (gs "!!var parent") content)
    ∧ (∀ (col colRes : Bool) (content : GoStr), (col && colRes) = false →
      rewriteCollectionMarkers col colRes content = content) := by
  refine ⟨fun colRes fields r rest => rfl, fun fields r rest => rfl,
    fun content => rfl, ?_⟩
  intro col colRes content hcc
  unfold rewriteCollectionMarkers
  rw [hcc]
  rfl

/-- C6 (witness): the no-substitution part instantiated at the collection's
component pass on a document consisting of the collection marker token. -/
theorem marker_scoping_witness :
    rewriteCollectionMarkers true false (gs "!!var collection")
      = gs "!!var collection" :=
  marker_scoping.2.2.2 true false (gs "!!var collection") rfl

/-- One manifest document extracted from a manifest file, with the outcomes
of the two external calls made per document — `runtime.DecodeInto` and
`generate.Generate` — represented as data.  Both calls are deterministic
functions of the document text, so carrying their results with the
document is a faithful rendering. -/
structure ManifestDoc where
  decodeResult : Except GoStr UnstructuredObject
  generateResult : Except GoStr GoStr
  content : GoStr

/-- One entry of `ws.Resources` as consumed by `processManifests`: the
manifest file path and the outcomes of the `processMarkers` file stage —
the read/inspect/re-marshal steps collapsed into one result (each of them
wraps its error identically), the classified marker results, and the
extracted documents. -/
structure ManifestFile where
  name : GoStr
  readResult : Except GoStr Unit
  markerResults : List MarkerResult
  docs : List ManifestDoc

/-- `formatProcessError` (internal/workload/v1):
`fmt.Errorf("error processing file %s; %w", manifestFile, err)`. -/
def formatProcessError (manifestFile err : GoStr) : GoStr :=
  gs "error processing file " ++ manifestFile ++ gs "; " ++ err

/-- Modelled from the spec: `determineSourceFileName` is not among the
provided sources; per §4.7 it derives the per-manifest candidate filename
deterministically from the manifest path — here the path's base name with
its extension replaced by `.go`. -/
def determineSourceFileName (manifestFile : GoStr) : GoStr :=
  splitHeadGo (gs ".") ((splitOnCharGo '/' manifestFile).getLastD []) ++ gs ".go"

/-- Modelled from the spec: the API group sentinel for core resources
(§4.5 maps core resources to a `core` group sentinel); the constant
`coreRBACGroup` is not among the provided sources. -/
def coreRBACGroup : GoStr := gs "core"

/-- Modelled from the spec: `rbacGroupFromGroup` is not among the provided
sources and §4.5 describes no transformation of a non-core group beyond
selecting it, so it is the identity here. -/
def rbacGroupFromGroup (group : GoStr) : GoStr := group

/-- `versionGroupFromAPIVersion` (internal/workload/v1): split on `/`; a
bare version is a core resource, otherwise the pair is (version, group). -/
def versionGroupFromAPIVersion (apiVersion : GoStr) : GoStr × GoStr :=
  match splitOnCharGo '/' apiVersion with
  | [v] => (v, coreRBACGroup)
  | elems => (elems.getD 1 [], rbacGroupFromGroup (elems.getD 0 []))

/-- The per-document loop body of `processManifests`: decode the document
(errors enriched with the file identifier), build the `ChildResource` with
its unique name and group/version, generate its source code (errors
enriched likewise). -/
def processDocs (mname : GoStr) : List ManifestDoc → Except GoStr (List ChildResource)
  | [] => .ok []
  | d :: ds =>
    match d.decodeResult with
    | .error e => .error (formatProcessError mname e)
    | .ok obj =>
      match d.generateResult with
      | .error e => .error (formatProcessError mname e)
      | .ok code =>
        match processDocs mname ds with
        | .error e => .error e
        | .ok rest =>
          .ok ({ Name := obj.name,
                 UniqueName := generateUniqueResourceName obj,
                 Group := (versionGroupFromAPIVersion obj.apiVersion).2,
                 Version := (versionGroupFromAPIVersion obj.apiVersion).1,
                 Kind := obj.kind,
                 SourceCode := code,
                 StaticContent := d.content } :: rest)

/-- The per-file loop body of `processManifests`: run the `processMarkers`
stage (read outcome, marker-result folding into the field tree, the
collection-marker rewrite applied to the extracted documents), then build
the file's `SourceFile` from its decoded children.  Every failure is
enriched with the manifest's file identifier. -/
def processFile (col colRes : Bool) (acc : APIFields × List SourceFile)
    (m : ManifestFile) : Except GoStr (APIFields × List SourceFile) :=
  match m.readResult with
  | .error e => .error (formatProcessError m.name e)
  | .ok _ =>
    match processMarkerResults col colRes acc.1 m.markerResults with
    | .error e => .error (formatProcessError m.name e)
    | .ok fields =>
      match processDocs m.name
          (m.docs.map (fun d =>
            { d with content := rewriteCollectionMarkers col colRes d.content })) with
      | .error e => .error e
      | .ok children =>
        .ok (fields,
          acc.2 ++ [{ Filename := determineSourceFileName m.name,
                      Children := children }])

/-- The manifest loop of `processManifests`, threading the accumulated
field tree and source files and stopping at the first error. -/
def processManifestsAux (col colRes : Bool)
    (acc : APIFields × List SourceFile) :
    List ManifestFile → Except GoStr (APIFields × List SourceFile)
  | [] => .ok acc
  | m :: ms =>
    match processFile col colRes acc m with
    | .error e => .error e
    | .ok acc2 => processManifestsAux col colRes acc2 ms

/-- The outputs of one `processManifests` run that the properties below
inspect: the compiled field tree and the deduplicated source files. -/
structure WorkloadResult where
  APISpecFields : APIFields
  SourceFiles : List SourceFile

/-- `processManifests` (internal/workload/v1): initialise the `Spec` root,
process every manifest in order, then deduplicate file names. -/
def processManifests (col colRes : Bool) (files : List ManifestFile) :
    Except GoStr WorkloadResult :=
  match processManifestsAux col colRes (initWorkloadSpecFields, []) files with
  | .error e => .error e
  | .ok acc =>
    .ok { APISpecFields := acc.1, SourceFiles := deduplicateFileNames acc.2 }

/-- C8: compilation is deterministic.  `processManifests` is a pure
function of the flag pair and the manifest list (every external call is a
deterministic function of the manifest content, carried as data), so two
runs on the identical manifest set produce identical results — in
particular identical SourceFile filename lists, identical UniqueName
values for every ChildResource, and an identical APIField tree, order
included. -/
theorem processManifests_deterministic (col colRes : Bool)
    (ms₁ ms₂ : List ManifestFile) (h : ms₁ = ms₂) :
    processManifests col colRes ms₁ = processManifests col colRes ms₂
    ∧ (processManifests col colRes ms₁).map
        (fun r => r.SourceFiles.map SourceFile.Filename)
      = (processManifests col colRes ms₂).map
        (fun r => r.SourceFiles.map SourceFile.Filename)
    ∧ (processManifests col colRes ms₁).map
        (fun r => r.SourceFiles.map (fun sf => sf.Children.map ChildResource.UniqueName))
      = (processManifests col colRes ms₂).map
        (fun r => r.SourceFiles.map (fun sf => sf.Children.map ChildResource.UniqueName))
    ∧ (processManifests col colRes ms₁).map (fun r => r.APISpecFields)
      = (processManifests col colRes ms₂).map (fun r => r.APISpecFields) := by
  subst h
  exact ⟨rfl, rfl, rfl, rfl⟩

/-- C8 (witness): two runs on the same one-manifest set coincide. -/
theorem processManifests_deterministic_witness :
    processManifests false false
        [⟨gs "app.yaml", .ok (), [],
          [⟨.ok ⟨gs "app", gs "default", gs "ConfigMap", gs "v1"⟩,
            .ok (gs "code"), gs "doc"⟩]⟩]
      = processManifests false false
        [⟨gs "app.yaml", .ok (), [],
          [⟨.ok ⟨gs "app", gs "default", gs "ConfigMap", gs "v1"⟩,
            .ok (gs "code"), gs "doc"⟩]⟩] :=
  (processManifests_deterministic false false _ _ rfl).1

theorem processManifestsAux_append (col colRes : Bool)
    (acc : APIFields × List SourceFile) (l₁ l₂ : List ManifestFile) :
    processManifestsAux col colRes acc (l₁ ++ l₂)
      = match processManifestsAux col colRes acc l₁ with
        | .error e => .error e
        | .ok acc2 => processManifestsAux col colRes acc2 l₂ := by
  induction l₁ generalizing acc with
  | nil => simp [processManifestsAux]
  | cons m ms ih =>
    simp only [List.cons_append, processManifestsAux]
    cases hpf : processFile col colRes acc m with
    | error e => simp
    | ok acc2 => exact ih acc2

theorem processDocs_error_shape (mname : GoStr) :
    ∀ (ds : List ManifestDoc) (e : GoStr), processDocs mname ds = .error e →
      ∃ err, e = formatProcessError mname err := by
  intro ds
  induction ds with
  | nil =>
    intro e h
    exact absurd h (by simp [processDocs])
  | cons d ds ih =>
    intro e h
    rw [processDocs] at h
    rcases hd : d.decodeResult with e0 | obj
    · rw [hd] at h
      exact ⟨e0, (Except.error.inj h).symm⟩
    · rw [hd] at h
      rcases hg : d.generateResult with e1 | code
      · rw [hg] at h
        exact ⟨e1, (Except.error.inj h).symm⟩
      · rw [hg] at h
        rcases hrec : processDocs mname ds with e2 | rest
        · rw [hrec] at h
          have he : e2 = e := Except.error.inj h
          exact ih e (he ▸ hrec)
        · rw [hrec] at h
          exact absurd h (by simp)

theorem processFile_error_shape (col colRes : Bool)
    (acc : APIFields × List SourceFile) (m : ManifestFile) (e : GoStr)
    (h : processFile col colRes acc m = .error e) :
    ∃ err, e = formatProcessError m.name err := by
  unfold processFile at h
  rcases hr : m.readResult with e0 | u
  · rw [hr] at h
    exact ⟨e0, (Except.error.inj h).symm⟩
  · rw [hr] at h
    rcases hmr : processMarkerResults col colRes acc.1 m.markerResults with e1 | fields
    · rw [hmr] at h
      exact ⟨e1, (Except.error.inj h).symm⟩
    · rw [hmr] at h
      rcases hpd : processDocs m.name
          (m.docs.map (fun d =>
            { d with content := rewriteCollectionMarkers col colRes d.content }))
          with e2 | children
      · rw [hpd] at h
        have he : e2 = e := Except.error.inj h
        exact processDocs_error_shape m.name _ e (he ▸ hpd)
      · rw [hpd] at h
        exact absurd h (by simp)

/-- C9: manifest processing is fail-stop with enriched errors.  If every
manifest of a prefix processes cleanly and the next manifest `m` fails at
any stage (reading/marker inspection, field insertion, decoding, or source
generation), then `processManifests` on the whole list returns exactly
that error; the error equals `formatProcessError` applied to `m`'s file
identifier (so the message contains the identifier), and the result is the
same whatever manifests follow `m` — no later manifest is processed and no
partial result is returned. -/
theorem processManifests_fail_stop (col colRes : Bool) (pre : List ManifestFile)
    (m : ManifestFile) (rest : List ManifestFile)
    (st : APIFields × List SourceFile) (e : GoStr)
    (hpre : processManifestsAux col colRes (initWorkloadSpecFields, []) pre = .ok st)
    (hm : processFile col colRes st m = .error e) :
    processManifests col colRes (pre ++ m :: rest) = .error e
    ∧ processManifests col colRes (pre ++ m :: rest)
        = processManifests col colRes (pre ++ [m])
    ∧ ∃ err : GoStr, e = formatProcessError m.name err := by
  have haux : ∀ l₂ : List ManifestFile,
      processManifestsAux col colRes (initWorkloadSpecFields, []) (pre ++ m :: l₂)
        = .error e := by
    intro l₂
    rw [processManifestsAux_append col colRes _ pre (m :: l₂), hpre]
    show processManifestsAux col colRes st (m :: l₂) = .error e
    rw [processManifestsAux, hm]
  refine ⟨?_, ?_, processFile_error_shape col colRes st m e hm⟩
  · unfold processManifests
    rw [haux rest]
  · unfold processManifests
    rw [haux rest, haux []]

/-- C9 (witness): a failing first manifest aborts the run with the
enriched error, identically with or without a later manifest present. -/
theorem processManifests_fail_stop_witness :
    processManifests false false
        ([] ++ (⟨gs "bad.yaml", .error (gs "boom"), [], []⟩ : ManifestFile)
          :: [⟨gs "later.yaml", .ok (), [], []⟩])
      = .error (formatProcessError (gs "bad.yaml") (gs "boom"))
    ∧ processManifests false false
        ([] ++ (⟨gs "bad.yaml", .error (gs "boom"), [], []⟩ : ManifestFile)
          :: [⟨gs "later.yaml", .ok (), [], []⟩])
      = processManifests false false
          ([] ++ [(⟨gs "bad.yaml", .error (gs "boom"), [], []⟩ : ManifestFile)])
    ∧ ∃ err : GoStr, formatProcessError (gs "bad.yaml") (gs "boom")
        = formatProcessError (gs "bad.yaml") err :=
  processManifests_fail_stop false false []
    ⟨gs "bad.yaml", .error (gs "boom"), [], []⟩
    [⟨gs "later.yaml", .ok (), [], []⟩]
    (initWorkloadSpecFields, []) (formatProcessError (gs "bad.yaml") (gs "boom"))
    rfl rfl
